import Mathlib

/-!
Verification of the Project Manager frontend (task-scheduler integration).

The definitions below are a shallow embedding of the repository's TypeScript
sources:

* `src/types/index.ts` — the wire data types (`Task`, `ScheduleTaskDto`,
  `ScheduleRequest`, `ScheduledTask`, `ScheduleResponse`, `UpdateTaskDto`);
* `TaskSchedulerSimple.tsx` (reproduced in `SCHEDULER_INTEGRATION.md`) — the
  scheduling dialog: `incompleteTasks`, `initializeTaskDetails`,
  `handleDependencyChange`, `parseEstimatedHours`, `validateScheduleRequest`,
  `handleScheduleTasks`, and the overdue rendering rule;
* `src/lib/scheduler-api.ts` — `SchedulerApiClient.request` /
  `scheduleProjectTasks`;
* `src/pages/ProjectDetails.tsx` — `handleToggleTask`.

JavaScript `Record<string, T>` objects are modelled as association lists with
single-binding update; the numbers produced by `parseFloat` on digit-and-dot
strings are exact decimals, modelled by an integer part and a fraction-digit
list (the lemma `Client.parseEstimatedHours_eq_rat` checks this representation
against the literal rational semantics); `Date` values compared by the
component are modelled by their parsed timestamps (integers).

The scheduling engine itself lives in the external MiniProjectManager backend;
it is modelled from the specification (§4) in the `Engine` namespace below.
-/

namespace Client

/-- `Task` from `src/types/index.ts` (fields in source order). -/
structure Task where
  id : String
  title : String
  dueDate : Option String
  isCompleted : Bool
  projectId : String
deriving DecidableEq, Repr

/-- `ScheduleTaskDto` from `src/types/index.ts`; `estimatedHours : number` is
an integer here because the component always submits `Math.round` results. -/
structure ScheduleTaskDto where
  title : String
  estimatedHours : Int
  dueDate : Option String
  dependencies : List String
deriving DecidableEq, Repr

/-- `ScheduleRequest` from `src/types/index.ts`. -/
structure ScheduleRequest where
  tasks : List ScheduleTaskDto
deriving DecidableEq, Repr

/-- `ScheduledTask` from `src/types/index.ts` (wire form, ISO-string dates). -/
structure ScheduledTask where
  title : String
  startDate : String
  endDate : String
  estimatedHours : Int
deriving DecidableEq, Repr

/-- `ScheduleResponse` from `src/types/index.ts`. -/
structure ScheduleResponse where
  recommendedOrder : List String
  scheduledTasks : List ScheduledTask
  isSchedulable : Bool
  warnings : List String
deriving DecidableEq, Repr

/-- `UpdateTaskDto` from `src/types/index.ts`: all three fields optional. -/
structure UpdateTaskDto where
  title : Option String
  dueDate : Option String
  isCompleted : Option Bool
deriving DecidableEq, Repr

/-- One value of the component state
`taskDetails: Record<string, { estimatedHours: string; dependencies: string[] }>`.
`estimatedHours` is optional because `handleDependencyChange` can create an
entry by spreading an absent record, leaving `estimatedHours` undefined. -/
structure TaskDetail where
  estimatedHours : Option String
  dependencies : List String
deriving DecidableEq, Repr

/-- The `taskDetails` record, as an association list keyed by task title. -/
abbrev TaskDetails := List (String × TaskDetail)

/-- JavaScript property read `details[k]`. -/
def lookupDetail (details : TaskDetails) (k : String) : Option TaskDetail :=
  (List.find? (fun p => p.fst == k) details).map Prod.snd

/-- JavaScript property write `details[k] = v` (a record holds one binding per
key, so an existing binding is replaced in place). -/
def setDetail (details : TaskDetails) (k : String) (v : TaskDetail) : TaskDetails :=
  if List.any details (fun p => p.fst == k) then
    List.map (fun p => if p.fst == k then (k, v) else p) details
  else
    details ++ [(k, v)]

/-- `taskDetails[title]?.dependencies || []` (an empty array is truthy in
JavaScript, so `|| []` fires only when the entry is absent). -/
def depsOf (details : TaskDetails) (title : String) : List String :=
  match lookupDetail details title with
  | none => []
  | some det => det.dependencies

/-- `taskDetails[title]?.estimatedHours || '1'`: the fallback fires when the
entry is absent, when the field is undefined, and when the string is empty
(the empty string is falsy in JavaScript). -/
def hoursStringOr1 (details : TaskDetails) (title : String) : String :=
  match lookupDetail details title with
  | none => "1"
  | some det =>
    match det.estimatedHours with
    | none => "1"
    | some s => if s = "" then "1" else s

/-- `const incompleteTasks = tasks.filter(task => !task.isCompleted)`. -/
def incompleteTasks (tasks : List Task) : List Task :=
  List.filter (fun t => !t.isCompleted) tasks

/-- `initializeTaskDetails` from `TaskSchedulerSimple.tsx`: rebuild the record
with one entry per incomplete task, keeping any previously stored hours string
and dependency list. -/
def initTaskDetails (tasks : List Task) (prev : TaskDetails) : TaskDetails :=
  List.map
    (fun t =>
      (t.title,
        { estimatedHours := some (hoursStringOr1 prev t.title)
          dependencies := depsOf prev t.title : TaskDetail }))
    (incompleteTasks tasks)

/-- `handleDependencyChange` from `TaskSchedulerSimple.tsx`: append the
dependency when checked, filter it out when unchecked; the rest of the entry is
spread from the previous record (so a missing entry yields an undefined
`estimatedHours`). -/
def handleDependencyChange (details : TaskDetails) (taskTitle dependency : String)
    (checked : Bool) : TaskDetails :=
  let currentDeps := depsOf details taskTitle
  let newDeps :=
    if checked then currentDeps ++ [dependency]
    else List.filter (fun d => !(d == dependency)) currentDeps
  setDetail details taskTitle
    { estimatedHours := Option.bind (lookupDetail details taskTitle) TaskDetail.estimatedHours
      dependencies := newDeps }

/-- The characters kept by `hoursString.replace(/[^\d.]/g, '')`. -/
def cleanChars (s : String) : List Char :=
  List.filter (fun c => c.isDigit || c == '.') s.data

/-- Decimal value of a digit list (most significant first). -/
def digitsVal (l : List Char) : Nat :=
  List.foldl (fun n c => 10 * n + (c.toNat - 48)) 0 l

/-- The exact decimal returned by `parseFloat` on a digit-and-dot string:
integer part and the digits after the dot. Its numeric value is
`intPart + digitsVal fracDigits / 10 ^ fracDigits.length`. -/
structure ParsedFloat where
  intPart : Nat
  fracDigits : List Char
deriving DecidableEq, Repr

/-- Numerator of the fractional part. -/
def ParsedFloat.fracNum (p : ParsedFloat) : Nat := digitsVal p.fracDigits

/-- Denominator of the fractional part. -/
def ParsedFloat.den (p : ParsedFloat) : Nat := 10 ^ p.fracDigits.length

/-- The rational value of a parsed decimal. -/
def ParsedFloat.val (p : ParsedFloat) : ℚ :=
  (p.intPart : ℚ) + (p.fracNum : ℚ) / (p.den : ℚ)

/-- The comparison `parsed < 1` of the source, on the decimal representation. -/
def ParsedFloat.ltOne (p : ParsedFloat) : Bool :=
  p.intPart == 0 && decide (p.fracNum < p.den)

/-- JavaScript `Math.round` (round half toward positive infinity) on the
decimal representation: the fraction is at least one half exactly when
`den ≤ 2 * fracNum`. -/
def ParsedFloat.round (p : ParsedFloat) : Nat :=
  p.intPart + (if p.den ≤ 2 * p.fracNum then 1 else 0)

/-- Digits after the dot: when the unparsed rest starts with a dot, the
digit run after it; otherwise there is no fractional part. -/
def fracDigitsOf : List Char → List Char
  | '.' :: r => List.takeWhile Char.isDigit r
  | _ => []

/-- JavaScript `parseFloat` restricted to strings of digits and dots (the only
strings the component feeds it): longest prefix `digits [. digits]`, `none`
when no digit is parsed (NaN). -/
def parseFloatCleaned (l : List Char) : Option ParsedFloat :=
  if (List.takeWhile Char.isDigit l).isEmpty
      && (fracDigitsOf (List.dropWhile Char.isDigit l)).isEmpty then none
  else some { intPart := digitsVal (List.takeWhile Char.isDigit l)
              fracDigits := fracDigitsOf (List.dropWhile Char.isDigit l) }

/-- `parseEstimatedHours` from `TaskSchedulerSimple.tsx`:
`isNaN(parsed) || parsed < 1 ? 1 : Math.round(parsed)`. -/
def parseEstimatedHours (hoursString : String) : Int :=
  match parseFloatCleaned (cleanChars hoursString) with
  | none => 1
  | some parsed => if parsed.ltOne then 1 else (parsed.round : Int)

/-- The same function written with literal rational arithmetic, used to check
the decimal representation against the source's numeric semantics. -/
def parseEstimatedHoursRat (hoursString : String) : Int :=
  match parseFloatCleaned (cleanChars hoursString) with
  | none => 1
  | some parsed => if parsed.val < 1 then 1 else ⌊parsed.val + 1 / 2⌋

/-- The element mapped over `incompleteTasks` in `handleScheduleTasks` when the
`ScheduleRequest` payload is built. -/
def mkDto (details : TaskDetails) (t : Task) : ScheduleTaskDto :=
  { title := t.title
    estimatedHours := parseEstimatedHours (hoursStringOr1 details t.title)
    dueDate := t.dueDate
    dependencies := depsOf details t.title }

/-- The `scheduleRequest` constructed by `handleScheduleTasks`. -/
def buildScheduleRequest (tasks : List Task) (details : TaskDetails) : ScheduleRequest :=
  { tasks := List.map (mkDto details) (incompleteTasks tasks) }

/-- The hours check of `validateScheduleRequest`: an error is recorded when
`isNaN(parsedHours) || parsedHours < 1` (the parse result is never NaN, so only
the comparison remains). -/
def hoursErrorFlag (details : TaskDetails) (t : Task) : Bool :=
  decide (parseEstimatedHours (hoursStringOr1 details t.title) < 1)

/-- The circular-dependency check of `validateScheduleRequest`: task `t` is
flagged when some dependency `dep` of `t` is the title of an incomplete task
and the stored dependencies of `dep` contain `t.title`. -/
def circularFlag (tasks : List Task) (details : TaskDetails) (t : Task) : Bool :=
  List.any (depsOf details t.title) (fun dep =>
    (List.any (incompleteTasks tasks) (fun u => u.title == dep)) &&
    (List.contains (depsOf details dep) t.title))

/-- Whether `validateScheduleRequest` records an error keyed by `t.title`. -/
def taskError (tasks : List Task) (details : TaskDetails) (t : Task) : Bool :=
  hoursErrorFlag details t || circularFlag tasks details t

/-- `validateScheduleRequest` from `TaskSchedulerSimple.tsx`:
`Object.keys(newErrors).length === 0 && incompleteTasks.length > 0`. -/
def validateScheduleRequest (tasks : List Task) (details : TaskDetails) : Bool :=
  (List.all (incompleteTasks tasks) (fun t => !taskError tasks details t)) &&
  decide ((incompleteTasks tasks).length > 0)

/-- `handleScheduleTasks`: when validation fails the function returns before
building a request; otherwise the built request is submitted. The result is
the submitted payload, if any. -/
def handleScheduleTasks (tasks : List Task) (details : TaskDetails) : Option ScheduleRequest :=
  if validateScheduleRequest tasks details then some (buildScheduleRequest tasks details)
  else none

/-- The component's early return: the all-tasks-completed card is rendered
exactly when `incompleteTasks.length === 0`. -/
def rendersAllCompletedCard (tasks : List Task) : Bool :=
  (incompleteTasks tasks).isEmpty

/-- The Schedule Tasks button exists only on the non-empty branch. -/
def rendersScheduleButton (tasks : List Task) : Bool :=
  !(incompleteTasks tasks).isEmpty

/-- A request has no dangling references: every title listed in any task's
`dependencies` is the title of a task of the same request. -/
def requestDanglingFree (req : ScheduleRequest) : Bool :=
  List.all req.tasks (fun dto =>
    List.all dto.dependencies (fun d =>
      List.contains (List.map ScheduleTaskDto.title req.tasks) d))

/-- The overdue marker of the result view:
`new Date(scheduledTask.endDate) > new Date(task.dueDate)`, rendered only for
tasks that have a due date. Dates are modelled by their parsed timestamps. -/
def renderOverdueFlag (endTs : Int) (dueTs : Option Int) : Bool :=
  match dueTs with
  | none => false
  | some d => decide (d < endTs)

/-- The PUT body of `handleToggleTask` in `src/pages/ProjectDetails.tsx`:
`{ isCompleted: !task.isCompleted, dueDate: task.dueDate, title: task.title }`. -/
def toggleBody (task : Task) : UpdateTaskDto :=
  { title := some task.title
    dueDate := task.dueDate
    isCompleted := some (!task.isCompleted) }

/-- An HTTP response as observed by `SchedulerApiClient.request`: `ok` is
`status` in the 2xx range, `text` the body, and `json` the result of parsing
`text` as a JSON `ScheduleResponse` (`none` when the body is not valid JSON,
in which case `response.json()` rejects). -/
structure HttpResponse where
  ok : Bool
  status : Nat
  text : String
  json : Option ScheduleResponse
deriving DecidableEq, Repr

/-- The ways `scheduleProjectTasks` can reject. -/
inductive FetchError where
  | httpError (message : String)
  | jsonParseError
deriving DecidableEq, Repr

lemma isDigit_toNat_sub_le {c : Char} (h : c.isDigit = true) : c.toNat - 48 ≤ 9 := by
  unfold Char.isDigit at h
  simp only [Bool.and_eq_true, decide_eq_true_eq] at h
  have h2 : c.toNat ≤ 57 := h.2
  omega

lemma digitsVal_foldl_lt (l : List Char) (h : ∀ c ∈ l, c.isDigit = true) :
    ∀ acc : Nat,
      List.foldl (fun n c => 10 * n + (c.toNat - 48)) acc l < (acc + 1) * 10 ^ l.length := by
  induction l with
  | nil => intro acc; simp
  | cons c cs ih =>
    intro acc
    have hc : c.toNat - 48 ≤ 9 := isDigit_toNat_sub_le (h c (List.mem_cons_self c cs))
    have ih' := ih (fun x hx => h x (List.mem_cons_of_mem _ hx)) (10 * acc + (c.toNat - 48))
    have hstep : (10 * acc + (c.toNat - 48) + 1) * 10 ^ cs.length
        ≤ (acc + 1) * 10 ^ (c :: cs).length := by
      have h1 : 10 * acc + (c.toNat - 48) + 1 ≤ 10 * (acc + 1) := by omega
      calc (10 * acc + (c.toNat - 48) + 1) * 10 ^ cs.length
          ≤ 10 * (acc + 1) * 10 ^ cs.length := Nat.mul_le_mul_right _ h1
        _ = (acc + 1) * 10 ^ (c :: cs).length := by
            simp [List.length_cons, pow_succ]
            ring
    exact lt_of_lt_of_le ih' hstep

lemma digitsVal_lt (l : List Char) (h : ∀ c ∈ l, c.isDigit = true) :
    digitsVal l < 10 ^ l.length := by
  simpa using digitsVal_foldl_lt l h 0

lemma mem_fracDigitsOf_isDigit {rest : List Char} {c : Char}
    (hc : c ∈ fracDigitsOf rest) : c.isDigit = true := by
  unfold fracDigitsOf at hc
  split at hc
  · exact List.mem_takeWhile_imp hc
  · simp at hc

lemma parseFloatCleaned_fracNum_lt {l : List Char} {p : ParsedFloat}
    (h : parseFloatCleaned l = some p) : p.fracNum < p.den := by
  unfold parseFloatCleaned at h
  split at h
  · exact absurd h (by simp)
  · have hfrac : p.fracDigits = fracDigitsOf (List.dropWhile Char.isDigit l) := by
      cases h; rfl
    unfold ParsedFloat.fracNum ParsedFloat.den
    rw [hfrac]
    exact digitsVal_lt _ (fun c hc => mem_fracDigitsOf_isDigit hc)

lemma ParsedFloat.one_le_round {p : ParsedFloat} (h : p.ltOne = false) : 1 ≤ p.round := by
  have h' : ¬(p.intPart = 0 ∧ p.fracNum < p.den) := by
    intro hand
    rw [ParsedFloat.ltOne] at h
    simp [hand.1, hand.2] at h
  unfold ParsedFloat.round
  split
  · omega
  · omega

theorem parseEstimatedHours_ge_one (s : String) : 1 ≤ parseEstimatedHours s := by
  unfold parseEstimatedHours
  cases hp : parseFloatCleaned (cleanChars s) with
  | none => exact le_refl 1
  | some p =>
    dsimp only
    by_cases hlt : p.ltOne = true
    · rw [if_pos hlt]
    · rw [if_neg hlt]
      exact_mod_cast ParsedFloat.one_le_round (by simpa using hlt)

lemma ParsedFloat.den_pos (p : ParsedFloat) : 0 < p.den :=
  Nat.pos_pow_of_pos _ (by norm_num)

lemma ParsedFloat.ltOne_iff {p : ParsedFloat} (h : p.fracNum < p.den) :
    p.ltOne = true ↔ p.val < 1 := by
  have hd : (0 : ℚ) < (p.den : ℚ) := by exact_mod_cast p.den_pos
  have hlt : (p.fracNum : ℚ) / (p.den : ℚ) < 1 := by
    rw [div_lt_one hd]; exact_mod_cast h
  unfold ParsedFloat.ltOne ParsedFloat.val
  simp only [Bool.and_eq_true, beq_iff_eq, decide_eq_true_eq]
  constructor
  · rintro ⟨h0, _⟩
    rw [h0]
    simpa using hlt
  · intro hv
    refine ⟨?_, h⟩
    by_contra h0
    have hpos : 1 ≤ p.intPart := Nat.one_le_iff_ne_zero.mpr h0
    have h1 : (1 : ℚ) ≤ (p.intPart : ℚ) := by exact_mod_cast hpos
    have hnn : (0 : ℚ) ≤ (p.fracNum : ℚ) / (p.den : ℚ) :=
      div_nonneg (by positivity) hd.le
    linarith

lemma ParsedFloat.round_eq_floor {p : ParsedFloat} (h : p.fracNum < p.den) :
    (p.round : Int) = ⌊p.val + 1 / 2⌋ := by
  have hd : (0 : ℚ) < (p.den : ℚ) := by exact_mod_cast p.den_pos
  have hnn : (0 : ℚ) ≤ (p.fracNum : ℚ) / (p.den : ℚ) :=
    div_nonneg (by positivity) hd.le
  have hlt : (p.fracNum : ℚ) / (p.den : ℚ) < 1 := by
    rw [div_lt_one hd]; exact_mod_cast h
  unfold ParsedFloat.round ParsedFloat.val
  have hsplit : (p.intPart : ℚ) + (p.fracNum : ℚ) / (p.den : ℚ) + 1 / 2
      = (p.intPart : ℚ) + ((p.fracNum : ℚ) / (p.den : ℚ) + 1 / 2) := by ring
  rw [hsplit, Int.floor_nat_add]
  by_cases hge : p.den ≤ 2 * p.fracNum
  · have hhalf : (1 : ℚ) / 2 ≤ (p.fracNum : ℚ) / (p.den : ℚ) := by
      rw [le_div_iff₀ hd]
      have : (p.den : ℚ) ≤ 2 * (p.fracNum : ℚ) := by exact_mod_cast hge
      linarith
    have hfloor : ⌊(p.fracNum : ℚ) / (p.den : ℚ) + 1 / 2⌋ = 1 := by
      rw [Int.floor_eq_iff]
      constructor
      · push_cast
        linarith
      · push_cast
        linarith
    rw [if_pos hge, hfloor]
    push_cast
    ring
  · have hhalf : (p.fracNum : ℚ) / (p.den : ℚ) < 1 / 2 := by
      rw [div_lt_iff₀ hd]
      have : 2 * (p.fracNum : ℚ) < (p.den : ℚ) := by
        exact_mod_cast Nat.lt_of_not_le hge
      linarith
    have hfloor : ⌊(p.fracNum : ℚ) / (p.den : ℚ) + 1 / 2⌋ = 0 := by
      rw [Int.floor_eq_iff]
      constructor
      · push_cast
        linarith
      · push_cast
        linarith
    rw [if_neg hge, hfloor]
    push_cast
    ring

/-- The decimal representation computes exactly the rational semantics of the
source expression `isNaN(parsed) || parsed < 1 ? 1 : Math.round(parsed)`. -/
theorem parseEstimatedHours_eq_rat (s : String) :
    parseEstimatedHours s = parseEstimatedHoursRat s := by
  unfold parseEstimatedHours parseEstimatedHoursRat
  cases hp : parseFloatCleaned (cleanChars s) with
  | none => rfl
  | some p =>
    dsimp only
    have hfd := parseFloatCleaned_fracNum_lt hp
    by_cases hv : p.val < 1
    · rw [if_pos ((ParsedFloat.ltOne_iff hfd).mpr hv), if_pos hv]
    · rw [if_neg (fun hc => hv ((ParsedFloat.ltOne_iff hfd).mp hc)), if_neg hv,
        ParsedFloat.round_eq_floor hfd]

/-- `SchedulerApiClient.request` / `scheduleProjectTasks` from
`src/lib/scheduler-api.ts`, as a function of the received response: on a
non-2xx response throw an `Error` whose message is the body text, or the
fallback naming the status when the body is empty; otherwise return
`response.json()`, which rejects when the body is not valid JSON. -/
def schedulerRequest (resp : HttpResponse) : Except FetchError ScheduleResponse :=
  if !resp.ok then
    Except.error (FetchError.httpError
      (if resp.text = "" then "HTTP error! status: " ++ toString resp.status else resp.text))
  else
    match resp.json with
    | some body => Except.ok body
    | none => Except.error FetchError.jsonParseError

example : parseEstimatedHours "1" = 1 := by decide
example : parseEstimatedHours "1.5" = 2 := by decide
example : parseEstimatedHours "3 hours" = 3 := by decide
example : parseEstimatedHours "" = 1 := by decide
example : parseEstimatedHours "0.2" = 1 := by decide
example : parseEstimatedHours "2.4" = 2 := by decide
example : parseEstimatedHours "1..5" = 1 := by decide
example : parseEstimatedHours ".75" = 1 := by decide

end Client

namespace Engine

/-- Modelled from the spec: the scheduling engine of §2–§4 is implemented in
the external MiniProjectManager backend, not in this repository; this is its
input `Task` record (§3), with `dueDate` as a parsed timestamp. -/
structure Task where
  title : String
  estimatedHours : Nat
  dueDate : Option Nat
  dependencies : List String
deriving DecidableEq, Repr

/-- Modelled from the spec: `ScheduledTask` of §3 — title echoed, computed
start/end instants, hours echoed. Timestamps are working-hour instants. -/
structure ScheduledTask where
  title : String
  startDate : Nat
  endDate : Nat
  estimatedHours : Nat
deriving DecidableEq, Repr

/-- Modelled from the spec: `ScheduleResult` of §3 (the wire
`ScheduleResponse`). -/
structure ScheduleResult where
  recommendedOrder : List String
  scheduledTasks : List ScheduledTask
  isSchedulable : Bool
  warnings : List String
deriving DecidableEq, Repr

/-- Titles of a task list, in order. -/
def titlesOf (l : List Task) : List String := List.map Task.title l

/-- Modelled from the spec (§4.1–§4.2): a task is eligible (in-degree zero)
when every dependency that has a corresponding node in the graph has already
been emitted; dependency titles with no corresponding task add no edge. -/
def ready (allTitles done : List String) (t : Task) : Bool :=
  List.all (List.filter (fun d => List.contains allTitles d) t.dependencies)
    (fun d => List.contains done d)

/-- Modelled from the spec (§4.2 tie-break): strict priority order — earlier
due date first, any due date before no due date. -/
def dueLt (a b : Task) : Bool :=
  match a.dueDate, b.dueDate with
  | some x, some y => decide (x < y)
  | some _, none => true
  | none, _ => false

/-- Fold step selecting the highest-priority task; ties keep the earlier
candidate, so input order breaks ties (§4.2 determinism). -/
def chooseBetter (best : Option Task) (t : Task) : Option Task :=
  match best with
  | none => some t
  | some b => if dueLt t b then some t else some b

/-- Modelled from the spec (§4.2): among the remaining tasks, the eligible one
with the earliest due date, input order breaking ties; `none` when no task is
eligible. -/
def pickReady (allTitles done : List String) (remaining : List Task) : Option Task :=
  List.foldl chooseBetter none (List.filter (ready allTitles done) remaining)

/-- Modelled from the spec (§4.2): Kahn's algorithm. Each round extracts one
eligible task; when none is eligible the remaining (cyclic) tasks are appended
in their original input order. Returns the total order and the stuck tasks.
The fuel is the task count, enough for every round. -/
def kahnLoop (allTitles : List String) :
    Nat → List Task → List Task → List Task × List Task
  | 0, remaining, acc => (acc ++ remaining, remaining)
  | fuel + 1, remaining, acc =>
    match pickReady allTitles (titlesOf acc) remaining with
    | some t => kahnLoop allTitles fuel (List.erase remaining t) (acc ++ [t])
    | none => (acc ++ remaining, remaining)

/-- Modelled from the spec (§4.2): the dependency-respecting total order and
the set of tasks stuck in a cycle. -/
def topo (tasks : List Task) : List Task × List Task :=
  kahnLoop (titlesOf tasks) tasks.length tasks []

/-- Modelled from the spec (§4.3): hour `h` (hours since a Monday 00:00 epoch)
is a working hour when its day is Monday–Friday and its time is 09:00–17:00. -/
def isWorkingHour (h : Nat) : Bool :=
  decide (h / 24 % 7 < 5) && decide (9 ≤ h % 24) && decide (h % 24 < 17)

/-- First working hour at or after `h`, searched over one week (a week always
contains a working hour, so the fallback is never reached). -/
def nextWorkingFrom : Nat → Nat → Nat
  | 0, h => h
  | fuel + 1, h => if isWorkingHour h then h else nextWorkingFrom fuel (h + 1)

/-- First working hour at or after `h`. -/
def nextWorking (h : Nat) : Nat := nextWorkingFrom 168 h

/-- Modelled from the spec (§4.3): consume `n` working hours from the cursor,
rolling over non-working hours and days. -/
def consume : Nat → Nat → Nat
  | 0, h => h
  | n + 1, h => consume n (nextWorking h + 1)

/-- Modelled from the spec (§4.3): walk the recommended order placing tasks
back to back; each task starts at the next working hour and ends after
consuming its estimated hours of working time. -/
def placeTasks (cursor : Nat) : List Task → List ScheduledTask
  | [] => []
  | t :: ts =>
    let s := nextWorking cursor
    let e := consume t.estimatedHours cursor
    { title := t.title, startDate := s, endDate := e, estimatedHours := t.estimatedHours }
      :: placeTasks e ts

/-- Modelled from the spec (§4.1, §7): one warning per dependency title with no
corresponding task. -/
def danglingWarnings (tasks : List Task) : List String :=
  List.flatten (List.map (fun t =>
    List.map (fun d => "DanglingDependency: " ++ d ++ " required by " ++ t.title)
      (List.filter (fun d => !(List.contains (titlesOf tasks) d)) t.dependencies)) tasks)

/-- Modelled from the spec (§4.2, §7): one aggregate warning naming the stuck
tasks when a cycle exists. -/
def cycleWarnings (stuck : List Task) : List String :=
  if stuck.isEmpty then []
  else ["CyclicDependency: " ++ String.intercalate ", " (titlesOf stuck)]

/-- Modelled from the spec (§4.3): after placement, one warning per task with a
due date whose computed end exceeds it. -/
def overdueWarnings (tasks : List Task) (placed : List ScheduledTask) : List String :=
  List.filterMap (fun st =>
    match Option.bind (List.find? (fun t => t.title == st.title) tasks) Task.dueDate with
    | some d => if d < st.endDate then some (st.title ++ " is overdue") else none
    | none => none) placed

/-- Modelled from the spec (§4, §4.4): the engine — topological ordering with
the due-date tie-break, cyclic remainder appended in input order, calendar
placement from the first working hour at or after `startTime`, and the
assembled response. -/
def scheduleEngine (startTime : Nat) (tasks : List Task) : ScheduleResult :=
  let ordered := (topo tasks).fst
  let stuck := (topo tasks).snd
  let placed := placeTasks (nextWorking startTime) ordered
  { recommendedOrder := titlesOf ordered
    scheduledTasks := placed
    isSchedulable := stuck.isEmpty
    warnings := danglingWarnings tasks ++ cycleWarnings stuck ++ overdueWarnings tasks placed }

example :
    (scheduleEngine 0 [{ title := "A", estimatedHours := 2, dueDate := none, dependencies := ["B"] },
                       { title := "B", estimatedHours := 1, dueDate := none, dependencies := [] }]).recommendedOrder
      = ["B", "A"] := by decide

example :
    (scheduleEngine 0 [{ title := "A", estimatedHours := 1, dueDate := none, dependencies := ["B"] },
                       { title := "B", estimatedHours := 1, dueDate := none, dependencies := ["A"] }]).isSchedulable
      = false := by decide

example :
    (scheduleEngine 0 [{ title := "A", estimatedHours := 1, dueDate := none, dependencies := ["B"] },
                       { title := "B", estimatedHours := 1, dueDate := none, dependencies := ["A"] }]).recommendedOrder
      = ["A", "B"] := by decide

example :
    (scheduleEngine 0 [{ title := "X", estimatedHours := 1, dueDate := none, dependencies := [] },
                       { title := "Y", estimatedHours := 1, dueDate := some 100, dependencies := [] }]).recommendedOrder
      = ["Y", "X"] := by decide

lemma foldl_chooseBetter_mem (l : List Engine.Task) :
    ∀ (acc : Option Engine.Task) (t : Engine.Task),
      List.foldl Engine.chooseBetter acc l = some t → t ∈ l ∨ acc = some t := by
  induction l with
  | nil => intro acc t h; exact Or.inr h
  | cons x xs ih =>
    intro acc t h
    rcases ih (Engine.chooseBetter acc x) t h with hm | he
    · exact Or.inl (List.mem_cons_of_mem _ hm)
    · cases acc with
      | none =>
        simp only [Engine.chooseBetter, Option.some.injEq] at he
        exact Or.inl (he ▸ List.mem_cons_self _ _)
      | some b =>
        simp only [Engine.chooseBetter] at he
        split at he
        · injection he with hxt
          exact Or.inl (hxt ▸ List.mem_cons_self _ _)
        · exact Or.inr he

lemma pickReady_mem {allTitles done : List String} {rem : List Engine.Task}
    {t : Engine.Task} (h : Engine.pickReady allTitles done rem = some t) : t ∈ rem := by
  unfold Engine.pickReady at h
  rcases foldl_chooseBetter_mem _ _ _ h with hm | he
  · exact List.mem_of_mem_filter hm
  · exact absurd he (by simp)

lemma kahnLoop_fst_perm (allTitles : List String) (fuel : Nat) :
    ∀ (rem acc : List Engine.Task),
      (Engine.kahnLoop allTitles fuel rem acc).fst.Perm (acc ++ rem) := by
  induction fuel with
  | zero => intro rem acc; exact List.Perm.refl _
  | succ n ih =>
    intro rem acc
    rw [Engine.kahnLoop]
    cases hp : Engine.pickReady allTitles (Engine.titlesOf acc) rem with
    | none => exact List.Perm.refl _
    | some t =>
      have ht : t ∈ rem := pickReady_mem hp
      have h1 := ih (List.erase rem t) (acc ++ [t])
      have h2 : (acc ++ [t]) ++ List.erase rem t = acc ++ (t :: List.erase rem t) := by
        simp
      rw [h2] at h1
      exact h1.trans (List.Perm.append_left acc (List.perm_cons_erase ht).symm)

lemma topo_fst_perm (tasks : List Engine.Task) : (Engine.topo tasks).fst.Perm tasks := by
  simpa using kahnLoop_fst_perm (Engine.titlesOf tasks) tasks.length tasks []

lemma placeTasks_map_title (cursor : Nat) (l : List Engine.Task) :
    List.map Engine.ScheduledTask.title (Engine.placeTasks cursor l)
      = List.map Engine.Task.title l := by
  induction l generalizing cursor with
  | nil => rfl
  | cons t ts ih => simp [Engine.placeTasks, ih]

end Engine

/-- C1: for every schedule request (any task list, any start time, cyclic
dependency graphs included), the engine's response is total — the
`recommendedOrder` and the titles of `scheduledTasks` are both permutations of
the input task title multiset, so every input title appears exactly once in
each, with no duplicates and no omissions. -/
theorem scheduleEngine_response_total (startTime : Nat) (tasks : List Engine.Task) :
    ((Engine.scheduleEngine startTime tasks).recommendedOrder).Perm
        (List.map Engine.Task.title tasks)
    ∧ (List.map Engine.ScheduledTask.title
        (Engine.scheduleEngine startTime tasks).scheduledTasks).Perm
        (List.map Engine.Task.title tasks) := by
  have hperm := Engine.topo_fst_perm tasks
  constructor
  · show (Engine.titlesOf (Engine.topo tasks).fst).Perm (List.map Engine.Task.title tasks)
    exact hperm.map Engine.Task.title
  · show (List.map Engine.ScheduledTask.title
        (Engine.placeTasks (Engine.nextWorking startTime) (Engine.topo tasks).fst)).Perm
        (List.map Engine.Task.title tasks)
    rw [Engine.placeTasks_map_title]
    exact hperm.map Engine.Task.title

/-- C2: the request built by the TaskScheduler component contains exactly the
DTOs of the tasks whose `isCompleted` field is false — every DTO of the request
comes from an incomplete task of the component's list, and every incomplete
task contributes its DTO. -/
theorem scheduleRequest_exactly_incomplete (tasks : List Client.Task)
    (details : Client.TaskDetails) (dto : Client.ScheduleTaskDto) :
    dto ∈ (Client.buildScheduleRequest tasks details).tasks ↔
      ∃ t, t ∈ tasks ∧ t.isCompleted = false ∧ dto = Client.mkDto details t := by
  unfold Client.buildScheduleRequest Client.incompleteTasks
  simp only [List.mem_map, List.mem_filter, Bool.not_eq_eq_eq_not, Bool.not_true]
  constructor
  · rintro ⟨t, ⟨ht, hc⟩, rfl⟩
    exact ⟨t, ht, hc, rfl⟩
  · rintro ⟨t, ht, hc, rfl⟩
    exact ⟨t, ⟨ht, hc⟩, rfl⟩

/-- C3: `parseEstimatedHours` returns an integer at least 1 on every input
string, and consequently every `estimatedHours` value placed in a built
`ScheduleRequest` is at least 1. -/
theorem estimatedHours_ge_one_in_request (s : String) (tasks : List Client.Task)
    (details : Client.TaskDetails) (dto : Client.ScheduleTaskDto)
    (hdto : dto ∈ (Client.buildScheduleRequest tasks details).tasks) :
    1 ≤ Client.parseEstimatedHours s ∧ 1 ≤ dto.estimatedHours := by
  refine ⟨Client.parseEstimatedHours_ge_one s, ?_⟩
  unfold Client.buildScheduleRequest at hdto
  rcases List.mem_map.mp hdto with ⟨t, _, rfl⟩
  exact Client.parseEstimatedHours_ge_one _

theorem estimatedHours_ge_one_in_request_witness :
    1 ≤ Client.parseEstimatedHours "2.5 hours"
    ∧ 1 ≤ (Client.ScheduleTaskDto.mk "T" 1 none []).estimatedHours :=
  estimatedHours_ge_one_in_request "2.5 hours"
    [{ id := "1", title := "T", dueDate := none, isCompleted := false, projectId := "p" }]
    [] { title := "T", estimatedHours := 1, dueDate := none, dependencies := [] }
    (by decide)

/-- C8: the result view marks a scheduled task with a due date as overdue
exactly when its computed end timestamp is strictly after the due timestamp;
equal timestamps are not overdue, and tasks without a due date are never
flagged. -/
theorem overdue_flag_strict (endTs dueTs : Int) :
    (Client.renderOverdueFlag endTs (some dueTs) = true ↔ dueTs < endTs)
    ∧ Client.renderOverdueFlag endTs (some endTs) = false
    ∧ Client.renderOverdueFlag endTs none = false := by
  refine ⟨?_, ?_, rfl⟩
  · simp [Client.renderOverdueFlag]
  · simp [Client.renderOverdueFlag]

/-- C10: the PUT body `handleToggleTask` sends is exactly the three-field
record with `isCompleted` negated and `title`, `dueDate` echoed from the
current task; it depends on nothing else of the task (two tasks agreeing on
those three fields produce the same body, whatever their other fields). -/
theorem toggleBody_fields (t u : Client.Task) (h1 : t.title = u.title)
    (h2 : t.dueDate = u.dueDate) (h3 : t.isCompleted = u.isCompleted) :
    Client.toggleBody t = Client.toggleBody u
    ∧ (Client.toggleBody t).title = some t.title
    ∧ (Client.toggleBody t).dueDate = t.dueDate
    ∧ (Client.toggleBody t).isCompleted = some (!t.isCompleted) := by
  refine ⟨?_, rfl, rfl, rfl⟩
  unfold Client.toggleBody
  rw [h1, h2, h3]

/-- C4 counterexample: the claim fails on a reachable state. Start from two
incomplete tasks A and B, let the dialog initialise the details record, tick B
as a dependency of A (all through the component's own handlers), then mark B
completed (the toggle round-trips through `handleToggleTask` and the parent
passes the updated list back down). Validation still passes, the request is
submitted, and it contains the dependency title B with no task titled B. -/
theorem danglingDependency_counterexample :
    Option.map Client.requestDanglingFree
      (Client.handleScheduleTasks
        [⟨"1", "A", none, false, "p"⟩, ⟨"2", "B", none, true, "p"⟩]
        (Client.handleDependencyChange
          (Client.initTaskDetails
            [⟨"1", "A", none, false, "p"⟩, ⟨"2", "B", none, false, "p"⟩] [])
          "A" "B" true))
      = some false := by decide

/-- C4 amended: dangling references are excluded only under the extra
assumption that every stored dependency of an incomplete task is still the
title of an incomplete task; then the submitted request has no dangling
dependency titles. -/
theorem scheduleRequest_danglingFree_of_deps_incomplete (tasks : List Client.Task)
    (details : Client.TaskDetails)
    (h : ∀ t, t ∈ Client.incompleteTasks tasks →
      ∀ dep, dep ∈ Client.depsOf details t.title →
        ∃ u, u ∈ Client.incompleteTasks tasks ∧ u.title = dep) :
    Client.requestDanglingFree (Client.buildScheduleRequest tasks details) = true := by
  unfold Client.requestDanglingFree Client.buildScheduleRequest
  rw [List.all_eq_true]
  intro dto hdto
  rcases List.mem_map.mp hdto with ⟨t, ht, rfl⟩
  rw [List.all_eq_true]
  intro dep hdep
  have hdep' : dep ∈ Client.depsOf details t.title := hdep
  rcases h t ht dep hdep' with ⟨u, hu, rfl⟩
  rw [List.map_map]
  exact List.elem_iff.mpr (List.mem_map.mpr ⟨u, hu, rfl⟩)

theorem scheduleRequest_danglingFree_of_deps_incomplete_witness :
    Client.requestDanglingFree
      (Client.buildScheduleRequest
        [⟨"1", "A", none, false, "p"⟩, ⟨"2", "B", none, false, "p"⟩]
        [("A", ⟨some "1", ["B"]⟩)]) = true :=
  scheduleRequest_danglingFree_of_deps_incomplete
    [⟨"1", "A", none, false, "p"⟩, ⟨"2", "B", none, false, "p"⟩]
    [("A", ⟨some "1", ["B"]⟩)]
    (by decide)

/-- C5 counterexample: a project list with two incomplete tasks sharing the
title A passes validation, and the submitted request carries the duplicate
title twice — its titles are not mutually distinct. -/
theorem duplicateTitles_counterexample :
    Option.map
      (fun req => decide (List.Nodup (List.map Client.ScheduleTaskDto.title req.tasks)))
      (Client.handleScheduleTasks
        [⟨"1", "A", none, false, "p"⟩, ⟨"2", "A", none, false, "p"⟩] [])
      = some false := by decide

/-- C5 amended: the request echoes the incomplete tasks' titles in order, so
its titles are mutually distinct whenever the incomplete tasks of the
component's list have pairwise distinct titles (and only then). -/
theorem scheduleRequest_titles_nodup_of_incomplete_nodup (tasks : List Client.Task)
    (details : Client.TaskDetails)
    (h : List.Nodup (List.map Client.Task.title (Client.incompleteTasks tasks))) :
    List.Nodup (List.map Client.ScheduleTaskDto.title
      (Client.buildScheduleRequest tasks details).tasks) := by
  unfold Client.buildScheduleRequest
  rw [List.map_map]
  exact h

theorem scheduleRequest_titles_nodup_of_incomplete_nodup_witness :
    List.Nodup (List.map Client.ScheduleTaskDto.title
      (Client.buildScheduleRequest
        [⟨"1", "A", none, false, "p"⟩, ⟨"2", "B", none, false, "p"⟩] []).tasks) :=
  scheduleRequest_titles_nodup_of_incomplete_nodup
    [⟨"1", "A", none, false, "p"⟩, ⟨"2", "B", none, false, "p"⟩] [] (by decide)

/-- C6 counterexample: on a 2xx response whose body is not valid JSON (here a
plain-text body), `scheduleProjectTasks` still rejects — `response.json()`
throws — so raising is not equivalent to a non-2xx status. -/
theorem schedulerRequest_ok_nonjson_counterexample :
    (Client.schedulerRequest ⟨true, 200, "All good", none⟩).isOk = false := by decide

/-- C6 amended: `scheduleProjectTasks` raises an error iff the response status
is non-2xx or the 2xx body fails to parse as JSON; on a non-2xx response the
thrown message is the body text, or the fallback naming the status when the
body is empty; on a 2xx response with a JSON body it returns the parsed body. -/
theorem schedulerRequest_error_characterization (resp : Client.HttpResponse) :
    ((Client.schedulerRequest resp).isOk = false ↔ resp.ok = false ∨ resp.json = none)
    ∧ (resp.ok = false →
        Client.schedulerRequest resp = Except.error (Client.FetchError.httpError
          (if resp.text = "" then "HTTP error! status: " ++ toString resp.status
           else resp.text)))
    ∧ (∀ body, resp.json = some body → resp.ok = true →
        Client.schedulerRequest resp = Except.ok body) := by
  obtain ⟨ok, status, text, json⟩ := resp
  cases ok <;> cases json <;>
    simp [Client.schedulerRequest, Except.isOk, Except.toBool]

theorem schedulerRequest_error_characterization_witness :
    Client.schedulerRequest ⟨false, 404, "", none⟩
        = Except.error (Client.FetchError.httpError "HTTP error! status: 404")
    ∧ Client.schedulerRequest ⟨true, 200, "json", some ⟨[], [], true, []⟩⟩
        = Except.ok ⟨[], [], true, []⟩ := by
  constructor
  · have h := (schedulerRequest_error_characterization ⟨false, 404, "", none⟩).2.1 rfl
    have hmsg : (if ("" : String) = "" then "HTTP error! status: " ++ toString (404 : Nat)
        else ("" : String)) = "HTTP error! status: 404" := by decide
    rw [hmsg] at h
    exact h
  · exact (schedulerRequest_error_characterization
      ⟨true, 200, "json", some ⟨[], [], true, []⟩⟩).2.2 ⟨[], [], true, []⟩ rfl rfl

/-- C7: the client never submits an empty task list — when there is no
incomplete task, validation returns false (its result conjoins the length
check), `handleScheduleTasks` returns without calling the API, and the
component renders the all-tasks-completed card with no schedule button; and
any request that is submitted has a non-empty `tasks` array. -/
theorem no_empty_schedule_request (tasks : List Client.Task)
    (details : Client.TaskDetails) :
    (Client.incompleteTasks tasks = [] →
      Client.validateScheduleRequest tasks details = false
      ∧ Client.handleScheduleTasks tasks details = none
      ∧ Client.rendersAllCompletedCard tasks = true
      ∧ Client.rendersScheduleButton tasks = false)
    ∧ ∀ req, Client.handleScheduleTasks tasks details = some req → req.tasks ≠ [] := by
  constructor
  · intro h
    have hval : Client.validateScheduleRequest tasks details = false := by
      unfold Client.validateScheduleRequest
      rw [h]
      rfl
    refine ⟨hval, ?_, ?_, ?_⟩
    · unfold Client.handleScheduleTasks
      rw [hval]
      rfl
    · unfold Client.rendersAllCompletedCard
      rw [h]
      rfl
    · unfold Client.rendersScheduleButton
      rw [h]
      rfl
  · intro req hreq
    unfold Client.handleScheduleTasks at hreq
    split at hreq
    · next hval =>
      injection hreq with hreq
      subst hreq
      unfold Client.validateScheduleRequest at hval
      rw [Bool.and_eq_true] at hval
      have hlen : 0 < (Client.incompleteTasks tasks).length := by
        simpa using hval.2
      intro hnil
      unfold Client.buildScheduleRequest at hnil
      have hmapnil : List.map (Client.mkDto details) (Client.incompleteTasks tasks) = [] :=
        hnil
      rw [List.map_eq_nil_iff.mp hmapnil] at hlen
      exact absurd hlen (by simp)
    · exact absurd hreq (by simp)

theorem no_empty_schedule_request_witness :
    (Client.validateScheduleRequest [⟨"1", "A", none, true, "p"⟩] [] = false
      ∧ Client.handleScheduleTasks [⟨"1", "A", none, true, "p"⟩] [] = none
      ∧ Client.rendersAllCompletedCard [⟨"1", "A", none, true, "p"⟩] = true
      ∧ Client.rendersScheduleButton [⟨"1", "A", none, true, "p"⟩] = false)
    ∧ ({ tasks := [⟨"A", 1, none, []⟩] } : Client.ScheduleRequest).tasks ≠ [] := by
  constructor
  · exact (no_empty_schedule_request [⟨"1", "A", none, true, "p"⟩] []).1 (by decide)
  · exact (no_empty_schedule_request [⟨"1", "A", none, false, "p"⟩] []).2
      { tasks := [⟨"A", 1, none, []⟩] } (by decide)

/-- C9: the client-side circular check flags a task exactly when some stored
dependency of it is the title of an incomplete task whose stored dependencies
contain the task's own title back (a mutual, length-two listing); and when no
such mutual pair exists — in particular for any longer cycle — validation
passes and the request is submitted to the engine unflagged. -/
theorem circular_check_characterization (tasks : List Client.Task)
    (details : Client.TaskDetails) :
    (∀ t : Client.Task,
      (Client.circularFlag tasks details t = true ↔
        ∃ dep, dep ∈ Client.depsOf details t.title
          ∧ (∃ u, u ∈ Client.incompleteTasks tasks ∧ u.title = dep)
          ∧ t.title ∈ Client.depsOf details dep))
    ∧ ((Client.incompleteTasks tasks).length > 0 →
        (∀ t, t ∈ Client.incompleteTasks tasks →
          ∀ dep, dep ∈ Client.depsOf details t.title →
            t.title ∉ Client.depsOf details dep) →
        Client.handleScheduleTasks tasks details
          = some (Client.buildScheduleRequest tasks details)) := by
  have hiff : ∀ t : Client.Task,
      Client.circularFlag tasks details t = true ↔
        ∃ dep, dep ∈ Client.depsOf details t.title
          ∧ (∃ u, u ∈ Client.incompleteTasks tasks ∧ u.title = dep)
          ∧ t.title ∈ Client.depsOf details dep := by
    intro t
    unfold Client.circularFlag
    simp only [List.any_eq_true, Bool.and_eq_true, beq_iff_eq]
    constructor
    · rintro ⟨dep, hdep, ⟨u, hu, hut⟩, hmem⟩
      exact ⟨dep, hdep, ⟨u, hu, hut⟩, List.elem_iff.mp hmem⟩
    · rintro ⟨dep, hdep, ⟨u, hu, hut⟩, hmem⟩
      exact ⟨dep, hdep, ⟨u, hu, hut⟩, List.elem_iff.mpr hmem⟩
  refine ⟨hiff, ?_⟩
  intro hlen hno
  unfold Client.handleScheduleTasks
  have hval : Client.validateScheduleRequest tasks details = true := by
    unfold Client.validateScheduleRequest
    rw [Bool.and_eq_true]
    refine ⟨?_, by simpa using hlen⟩
    rw [List.all_eq_true]
    intro t ht
    have hh : Client.hoursErrorFlag details t = false := by
      unfold Client.hoursErrorFlag
      simp only [decide_eq_false_iff_not, not_lt]
      exact Client.parseEstimatedHours_ge_one _
    have hcf : Client.circularFlag tasks details t = false := by
      rw [Bool.eq_false_iff]
      intro hc
      rcases (hiff t).mp hc with ⟨dep, hdep, ⟨u, hu, hut⟩, hmem⟩
      exact hno t ht dep hdep hmem
    simp [Client.taskError, hh, hcf]
  rw [hval]
  rfl

theorem circular_check_characterization_witness :
    Client.handleScheduleTasks
        [⟨"1", "A", none, false, "p"⟩, ⟨"2", "B", none, false, "p"⟩,
         ⟨"3", "C", none, false, "p"⟩]
        [("A", ⟨some "1", ["B"]⟩), ("B", ⟨some "1", ["C"]⟩), ("C", ⟨some "1", ["A"]⟩)]
      = some (Client.buildScheduleRequest
        [⟨"1", "A", none, false, "p"⟩, ⟨"2", "B", none, false, "p"⟩,
         ⟨"3", "C", none, false, "p"⟩]
        [("A", ⟨some "1", ["B"]⟩), ("B", ⟨some "1", ["C"]⟩), ("C", ⟨some "1", ["A"]⟩)])
    ∧ Client.circularFlag
        [⟨"1", "A", none, false, "p"⟩, ⟨"2", "B", none, false, "p"⟩]
        [("A", ⟨some "1", ["B"]⟩), ("B", ⟨some "1", ["A"]⟩)]
        ⟨"1", "A", none, false, "p"⟩ = true := by
  constructor
  · exact (circular_check_characterization
      [⟨"1", "A", none, false, "p"⟩, ⟨"2", "B", none, false, "p"⟩,
       ⟨"3", "C", none, false, "p"⟩]
      [("A", ⟨some "1", ["B"]⟩), ("B", ⟨some "1", ["C"]⟩), ("C", ⟨some "1", ["A"]⟩)]).2
      (by decide) (by decide)
  · exact ((circular_check_characterization
      [⟨"1", "A", none, false, "p"⟩, ⟨"2", "B", none, false, "p"⟩]
      [("A", ⟨some "1", ["B"]⟩), ("B", ⟨some "1", ["A"]⟩)]).1
      ⟨"1", "A", none, false, "p"⟩).mpr
      ⟨"B", by decide, ⟨⟨"2", "B", none, false, "p"⟩, by decide, rfl⟩, by decide⟩

theorem toggleBody_fields_witness :
    Client.toggleBody ⟨"1", "T", none, false, "p"⟩
      = Client.toggleBody ⟨"2", "T", none, false, "q"⟩
    ∧ (Client.toggleBody ⟨"1", "T", none, false, "p"⟩).title = some "T"
    ∧ (Client.toggleBody ⟨"1", "T", none, false, "p"⟩).dueDate = none
    ∧ (Client.toggleBody ⟨"1", "T", none, false, "p"⟩).isCompleted = some true :=
  toggleBody_fields ⟨"1", "T", none, false, "p"⟩ ⟨"2", "T", none, false, "q"⟩ rfl rfl rfl

